import Mathlib

/-! Verification of the parallel feature-vectorization engine in
`draco/learn/data_util.py`: the example partitioner (`run_in_parallel`),
the shared memoization cache (`count_violations_memoized`), the per-example
vector construction (`pair_partition_to_vec`), the deterministic aggregation
step, and the unlabeled-example loader (`load_unlabeled_specs`).

The Python code is shallowly embedded: the mutable shared dictionary becomes
explicit state passing of an association list, exceptions become `Except`,
and the process-pool map becomes an in-order fold over the partitions (the
pool's `map` preserves partition order).  The external violation counter
(`draco.learn.helper.count_violations`) is an opaque parameter `cv`; the
extra `Nat` threaded next to the cache counts how many times `cv` was
invoked, instrumenting the memoization property.  `draco/spec.py`
(`Query.from_vegalite`, `Task.to_asp`, the global `Encoding.encoding_cnt`)
is not part of the analyzed sources, so those pieces are modelled from the
specification text and marked as such; the global encoding counter is
threaded explicitly as a `Nat`. -/

namespace Draco

/-- Error taxonomy of the run: unparsable payload, failing counter,
`ValueError` raised by `np.array_split`/`pd.concat`, failing `assert`. -/
inductive Err
  | dataFormatError
  | computeError
  | valueError
  | assertionError
deriving DecidableEq

/-- Data schema descriptor (`draco.spec.Data`): ordered field names,
optional row count, source url. -/
structure DataObj where
  fields : List String
  numRows : Option Nat
  url : String
deriving DecidableEq

/-- Values of the loosely typed example fields (`data`, `task` and the cells
of the assembled row): Python `None`, an integer, a string, or a resolved
`Data` object. -/
inductive Val
  | none
  | nat (n : Nat)
  | str (s : String)
  | data (d : DataObj)
deriving DecidableEq

/-- Modelled from the spec: a specification payload (`negative`/`positive`
or `left`/`right`) is an opaque structured object that either parses into a
query or raises; `valid` records whether parsing succeeds, `channels` the
encoded channels, `url` the data-source url read by the unlabeled loader. -/
structure VLSpec where
  valid : Bool
  channels : List String
  url : String
deriving DecidableEq

/-- Modelled from the spec: an encoding carries the identifier `e<n>` drawn
from the global `Encoding.encoding_cnt` counter at construction time. -/
structure Encoding where
  id : Nat
  channel : String
deriving DecidableEq

/-- A query is the list of encodings parsed from a payload. -/
structure Query where
  encodings : List Encoding
deriving DecidableEq

/-- The unit handed to the violation counter: `Task(data, query, task)` as
built at `data_util.py:194` and `data_util.py:196`. -/
structure Task where
  data : Val
  query : Query
  taskType : Val
deriving DecidableEq

/-- Modelled from the spec: numbering of the encodings of a parsed query,
continuing from the ambient counter value. -/
def numberChannels : Nat → List String → List Encoding
  | _, [] => []
  | cnt, ch :: rest => ⟨cnt, ch⟩ :: numberChannels (cnt + 1) rest

/-- Modelled from the spec: `Query.from_vegalite` (in `draco/spec.py`, not
among the analyzed sources) parses a payload into a query whose encodings
are numbered from the ambient global counter, raising a data-format error
on a malformed payload.  It returns the new counter value. -/
def Query.from_vegalite (cnt : Nat) (s : VLSpec) : Except Err (Query × Nat) :=
  if s.valid then Except.ok (⟨numberChannels cnt s.channels⟩, cnt + s.channels.length)
  else Except.error Err.dataFormatError

def numRowsAsp : Option Nat → String
  | Option.none => "-"
  | some n => toString n

/-- Modelled from the spec: the stable textual encoding of a field value. -/
def valAsp : Val → String
  | Val.none => "none"
  | Val.nat n => "nat(" ++ toString n ++ ")"
  | Val.str s => "str(" ++ s ++ ")"
  | Val.data d =>
      "data(" ++ String.intercalate "," d.fields ++ ";" ++ numRowsAsp d.numRows
        ++ ";" ++ d.url ++ ")"

def Encoding.to_asp (e : Encoding) : String :=
  "encoding(e" ++ toString e.id ++ "," ++ e.channel ++ ")"

def Query.to_asp (q : Query) : String :=
  String.intercalate "." (q.encodings.map Encoding.to_asp)

/-- Modelled from the spec: `Task.to_asp` (in `draco/spec.py`) is the
canonical serialized form of a task — a stable textual encoding of schema,
query (with its encoding identifiers) and task type; used as cache key. -/
def Task.to_asp (t : Task) : String :=
  "task(" ++ valAsp t.data ++ "|" ++ Query.to_asp t.query ++ "|" ++ valAsp t.taskType ++ ")"

/-- A feature vector: mapping from constraint-weight name to count. -/
abbrev FeatureVec := List (String × Nat)

/-- The shared memoization dictionary, keyed by `Task.to_asp`. -/
abbrev Cache := List (String × FeatureVec)

/-- First-match association-list lookup (`key in dict` / `dict[key]`). -/
def alookup {κ β : Type} [DecidableEq κ] : List (κ × β) → κ → Option β
  | [], _ => Option.none
  | (k, v) :: rest, key => if k = key then some v else alookup rest key

/-- `count_violations_memoized` (`data_util.py:155-159`): look the canonical
key up in the shared dictionary, invoke the counter only on a miss, store
and return the stored vector.  The final `Nat` counts invocations of `cv`
(0 on a hit, 1 on a successful miss). -/
def count_violations_memoized (cv : Task → Except Err FeatureVec) (processed_specs : Cache)
    (task : Task) : Except Err (FeatureVec × Cache × Nat) :=
  match alookup processed_specs task.to_asp with
  | some v => Except.ok (v, processed_specs, 0)
  | Option.none =>
    match cv task with
    | Except.ok v => Except.ok (v, (task.to_asp, v) :: processed_specs, 1)
    | Except.error e => Except.error e

/-- Number of cache misses a single resolution of `key` against `cache`
encounters (0 on a hit, 1 on a miss). -/
def missCount (cache : Cache) (key : String) : Nat :=
  match alookup cache key with
  | some _ => 0
  | Option.none => 1

/-- `PosNegExample` (`data_util.py:39`): the positional six-field record. -/
structure PosNeg where
  pair_id : String
  data : Val
  task : Val
  source : String
  negative : VLSpec
  positive : VLSpec
deriving DecidableEq

/-- An input example: the `PosNegExample` or `UnlabeledExample` named tuple
(`data_util.py:39-40`).  Both share the first four fields; the last two are
`negative`/`positive` or `left`/`right`. -/
inductive Example
  | posNeg (pair_id : String) (data : Val) (task : Val) (source : String)
      (negative positive : VLSpec)
  | unlabeled (pair_id : String) (data : Val) (task : Val) (source : String)
      (left right : VLSpec)
deriving DecidableEq

/-- `np.array_split` turns the example list into rows of an object array,
so the worker rebuilds every row positionally via `PosNegExample(*example)`
(`data_util.py:190-191`), whatever its original variant was. -/
def rebuild : Example → PosNeg
  | Example.posNeg p d t s n q => ⟨p, d, t, s, n, q⟩
  | Example.unlabeled p d t s l r => ⟨p, d, t, s, l, r⟩

/-- One assembled output row: the two feature vectors plus the `source` and
`task` scalars, indexed by `pair_id` (`data_util.py:198-206`). -/
structure FeatureRow where
  pair_id : String
  neg : FeatureVec
  pos : FeatureVec
  source : String
  task : Val
deriving DecidableEq

/-- The two tasks derived for one example (`data_util.py:188-196`): the
encoding counter is reset to 0 for the example, the negative payload is
parsed first, the positive payload continues from the resulting counter. -/
def exampleTasks (r : PosNeg) : Except Err (Task × Task) :=
  match Query.from_vegalite 0 r.negative with
  | Except.error e => Except.error e
  | Except.ok (qn, cnt1) =>
    match Query.from_vegalite cnt1 r.positive with
    | Except.error e => Except.error e
    | Except.ok (qp, _) => Except.ok (⟨r.data, qn, r.task⟩, ⟨r.data, qp, r.task⟩)

/-- The per-example body of the worker loop (`data_util.py:187-206`):
reset the counter, rebuild the row, resolve both tasks through the cache,
assemble the feature row. -/
def processOne (cv : Task → Except Err FeatureVec) (cache : Cache) (e : Example) :
    Except Err (FeatureRow × Cache × Nat) :=
  match exampleTasks (rebuild e) with
  | Except.error err => Except.error err
  | Except.ok (tn, tp) =>
    match count_violations_memoized cv cache tn with
    | Except.error err => Except.error err
    | Except.ok (vn, c1, n1) =>
      match count_violations_memoized cv c1 tp with
      | Except.error err => Except.error err
      | Except.ok (vp, c2, n2) =>
        Except.ok (⟨(rebuild e).pair_id, vn, vp, (rebuild e).source, (rebuild e).task⟩,
          c2, n1 + n2)

/-- The worker loop over one partition, threading the shared cache. -/
def processPartition (cv : Task → Except Err FeatureVec) :
    Cache → List Example → Except Err (List FeatureRow × Cache × Nat)
  | cache, [] => Except.ok ([], cache, 0)
  | cache, e :: rest =>
    match processOne cv cache e with
    | Except.error err => Except.error err
    | Except.ok (row, c1, n1) =>
      match processPartition cv c1 rest with
      | Except.error err => Except.error err
      | Except.ok (rows, c2, n2) => Except.ok (row :: rows, c2, n1 + n2)

/-- `pair_partition_to_vec` (`data_util.py:181-208`): run the loop, then
`pd.concat(dfs)`, which raises a `ValueError` when the partition was empty
(no objects to concatenate). -/
def pair_partition_to_vec (cv : Task → Except Err FeatureVec)
    (input_data : Cache × List Example) : Except Err (List FeatureRow × Cache × Nat) :=
  match processPartition cv input_data.1 input_data.2 with
  | Except.error err => Except.error err
  | Except.ok (rows, c, n) =>
    if rows.isEmpty then Except.error Err.valueError else Except.ok (rows, c, n)

def sumL : List Nat → Nat
  | [] => 0
  | x :: xs => x + sumL xs

def joinL {α : Type} : List (List α) → List α
  | [] => []
  | p :: ps => p ++ joinL ps

/-- Section sizes of `np.array_split(l, n)`: `divmod(N, n)` gives `extras`
sections of size `N/n + 1` followed by `n - extras` of size `N/n`. -/
def splitSizes (N n : Nat) : List Nat :=
  List.replicate (N % n) (N / n + 1) ++ List.replicate (n - N % n) (N / n)

def splitBySizes {α : Type} : List Nat → List α → List (List α)
  | [], _ => []
  | s :: rest, l => l.take s :: splitBySizes rest (l.drop s)

/-- `np.array_split(l, n)` for `n ≥ 1`: contiguous order-preserving
sections with the numpy section sizes.  (`n = 0` raises in numpy; the
caller checks for it.) -/
def array_split {α : Type} (l : List α) (n : Nat) : List (List α) :=
  splitBySizes (splitSizes l.length n) l

/-- `splits = min([cpu_count() * 20, math.ceil(len(data) / 10)])`
(`data_util.py:214`); `math.ceil(N / 10)` is `(N + 9) / 10` on naturals. -/
def splitsOf (cpu_count N : Nat) : Nat :=
  min (cpu_count * 20) ((N + 9) / 10)

/-- `processes = min(cpu_count(), splits)` (`data_util.py:216`). -/
def processesOf (cpu_count splits : Nat) : Nat :=
  min cpu_count splits

/-- Computable lexicographic comparison on character lists (the string
order used by the index sort). -/
def leChars : List Char → List Char → Bool
  | [], _ => true
  | _ :: _, [] => false
  | a :: as, b :: bs =>
    if a.toNat < b.toNat then true
    else if b.toNat < a.toNat then false
    else leChars as bs

def leStr (a b : String) : Bool := leChars a.data b.data

/-- Insertion step of the aggregator's sort by the `pair_id` index. -/
def insertRow (r : FeatureRow) : List FeatureRow → List FeatureRow
  | [] => [r]
  | x :: xs => if leStr r.pair_id x.pair_id then r :: x :: xs else x :: insertRow r xs

/-- `df.sort_index()` (`data_util.py:228`): sort the concatenated rows by
their `pair_id` index. -/
def sortRows (l : List FeatureRow) : List FeatureRow :=
  l.foldr insertRow []

/-- `pool.map(func, ...)` followed by `pd.concat` (`data_util.py:224`):
apply the partition worker to each partition in order, threading the
shared dictionary, and concatenate the fragments in partition order. -/
def mapPartitions (f : Cache × List Example → Except Err (List FeatureRow × Cache × Nat)) :
    Cache → List (List Example) → Except Err (List FeatureRow × Cache × Nat)
  | cache, [] => Except.ok ([], cache, 0)
  | cache, p :: ps =>
    match f (cache, p) with
    | Except.error err => Except.error err
    | Except.ok (rows, c1, n1) =>
      match mapPartitions f c1 ps with
      | Except.error err => Except.error err
      | Except.ok (rest, c2, n2) => Except.ok (rows ++ rest, c2, n1 + n2)

/-- `run_in_parallel` (`data_util.py:211-232`): compute the split count,
split the data (`np.array_split` raises a `ValueError` on zero sections),
run the workers over the partitions with a fresh shared dictionary, then
sort the concatenated result by index. -/
def run_in_parallel (f : Cache × List Example → Except Err (List FeatureRow × Cache × Nat))
    (cpu_count : Nat) (data : List Example) : Except Err (List FeatureRow) :=
  if splitsOf cpu_count data.length = 0 then Except.error Err.valueError
  else
    match mapPartitions f [] (array_split data (splitsOf cpu_count data.length)) with
    | Except.error err => Except.error err
    | Except.ok (rows, _, _) => Except.ok (sortRows rows)

/-- `pairs_to_vec` (`data_util.py:235-238`). -/
def pairs_to_vec (cv : Task → Except Err FeatureVec) (cpu_count : Nat)
    (specs : List Example) : Except Err (List FeatureRow) :=
  run_in_parallel (pair_partition_to_vec cv) cpu_count specs

/-- Proof-side sequential form of the pipeline: one pass over the whole
example list with the shared cache. -/
def runSeq (cv : Task → Except Err FeatureVec) (data : List Example) :
    Except Err (List FeatureRow) :=
  if data.length = 0 then Except.error Err.valueError
  else
    match processPartition cv [] data with
    | Except.error err => Except.error err
    | Except.ok (rows, _, _) => Except.ok (sortRows rows)

def vecRepr (v : FeatureVec) : String :=
  String.intercalate "," (v.map fun p => p.1 ++ ":" ++ toString p.2)

def rowRepr (r : FeatureRow) : String :=
  r.pair_id ++ "|" ++ vecRepr r.neg ++ "|" ++ vecRepr r.pos ++ "|" ++ r.source
    ++ "|" ++ valAsp r.task

def strHash (s : String) : Nat :=
  s.foldl (fun a c => a * 31 + c.toNat) 7

/-- Modelled from the spec: the reproducibility fingerprint
(`hash_pandas_object(df).sum()`, `data_util.py:230`) — the sum of a stable
per-row hash over the sorted table's contents. -/
def fingerprint (rows : List FeatureRow) : Nat :=
  sumL (rows.map fun r => strHash (rowRepr r))

/-- `get_nested_index` (`data_util.py:162-171`): the fixed two-level column
set — `negative`/`positive` crossed with each feature name, then the
`source` and `task` scalar columns.  The feature vocabulary comes from the
external `current_weights()` and is a parameter here. -/
def get_nested_index (features : List String) : List (String × String) :=
  (features.map fun f => ("negative", f)) ++ (features.map fun f => ("positive", f))
    ++ [("source", ""), ("task", "")]

/-- Cell lookup of the per-example dictionary built at
`data_util.py:200-204`: negative vector under `negative`, positive under
`positive`, plus the `source` and `task` scalars. -/
def rowLookup (row : FeatureRow) (col : String × String) : Option Val :=
  if col.1 = "negative" then (alookup row.neg col.2).map Val.nat
  else if col.1 = "positive" then (alookup row.pos col.2).map Val.nat
  else if col.1 = "source" ∧ col.2 = "" then some (Val.str row.source)
  else if col.1 = "task" ∧ col.2 = "" then some row.task
  else Option.none

/-- `pd.DataFrame(specs, columns=columns, index=[pair_id])`
(`data_util.py:206`): one cell per fixed column, `Option.none` standing for
a missing value (`NaN`). -/
def rowCells (features : List String) (row : FeatureRow) :
    List ((String × String) × Option Val) :=
  (get_nested_index features).map fun c => (c, rowLookup row c)

/-- `data.fillna(0, inplace=True)` in `_get_pos_neg_data`
(`data_util.py:241-248`): missing cells become the count 0. -/
def fillna0 (cells : List ((String × String) × Option Val)) :
    List ((String × String) × Option Val) :=
  cells.map fun p => (p.1, some (p.2.getD (Val.nat 0)))

/-- The `assert len(specs) == len(vecs)` consistency check of the callers
(`data_util.py:265` and `data_util.py:274`). -/
def lengthAssert (specs : List Example) (vecs : List FeatureRow) : Except Err Unit :=
  if specs.length = vecs.length then Except.ok () else Except.error Err.assertionError

def isErr {α : Type} : Except Err α → Bool
  | Except.error _ => true
  | Except.ok _ => false

/-- The per-run cache of resolved `Data` objects, keyed by url
(`data_util.py:119`). -/
abbrev DataCache := List (String × DataObj)

/-- `Data.from_json` lives in `draco/spec.py`; the loader afterwards
overwrites the url field with the short url (`data_util.py:122-124`).
`resolvedData fromJson url` is the object the url-keyed cache holds. -/
def resolvedData (fromJson : String → DataObj) (url : String) : DataObj :=
  ⟨(fromJson url).fields, (fromJson url).numRows, url⟩

/-- `acquire_data` (`data_util.py:120-125`): resolve a url through the
per-run data cache, loading and re-labelling it on first use. -/
def acquire_data (fromJson : String → DataObj) (cache : DataCache) (url : String) :
    DataObj × DataCache :=
  match alookup cache url with
  | some d => (d, cache)
  | Option.none => (resolvedData fromJson url, (url, resolvedData fromJson url) :: cache)

/-- `itertools.combinations(spec_list, 2)` in list order. -/
def combinations2 : List VLSpec → List (VLSpec × VLSpec)
  | [] => []
  | x :: xs => (xs.map fun y => (x, y)) ++ combinations2 xs

/-- The pair loop of `load_unlabeled_specs` (`data_util.py:131-150`):
assert the two sides differ, assert they share a url, resolve the url
through the data cache, and build
`UnlabeledExample(f'halden-{cnt}', None, data, 'halden', left, right)`. -/
def loadPairs (fromJson : String → DataObj) :
    Nat → DataCache → List (VLSpec × VLSpec) → Except Err (List Example × Nat × DataCache)
  | cnt, cache, [] => Except.ok ([], cnt, cache)
  | cnt, cache, (l, r) :: rest =>
    if l = r then Except.error Err.assertionError
    else if l.url ≠ r.url then Except.error Err.assertionError
    else
      match loadPairs fromJson (cnt + 1) (acquire_data fromJson cache l.url).2 rest with
      | Except.error err => Except.error err
      | Except.ok (exs, cnt2, cache2) =>
        Except.ok (Example.unlabeled ("halden-" ++ toString cnt) Val.none
          (Val.data (acquire_data fromJson cache l.url).1) "halden" l r :: exs, cnt2, cache2)

/-- The nested iteration of `load_unlabeled_specs`: files, then
`num_channel` groups, then spec lists, then combinations of two. -/
def allPairs (files : List (List (List (List VLSpec)))) : List (VLSpec × VLSpec) :=
  joinL ((joinL (joinL files)).map combinations2)

/-- `load_unlabeled_specs` (`data_util.py:114-152`), with the directory
contents passed in: the already-parsed json structure of each file. -/
def load_unlabeled_specs (fromJson : String → DataObj)
    (files : List (List (List (List VLSpec)))) : Except Err (List Example) :=
  match loadPairs fromJson 0 [] (allPairs files) with
  | Except.error err => Except.error err
  | Except.ok (exs, _, _) => Except.ok exs

/-- Shape invariant of every loader-produced example (claim C10): data
field `None`, task field the url-resolved `Data` object, source `halden`,
both sides sharing the url. -/
def unlabeledShape (fromJson : String → DataObj) : Example → Prop
  | Example.unlabeled _ d t s l r =>
      d = Val.none ∧ t = Val.data (resolvedData fromJson l.url) ∧ s = "halden" ∧ l.url = r.url
  | Example.posNeg _ _ _ _ _ _ => False

/-- Rows are weakly sorted by the `pair_id` index. -/
def SortedRows (l : List FeatureRow) : Prop :=
  List.Pairwise (fun a b => leStr a.pair_id b.pair_id = true) l

/- Concrete fixtures used by the witnesses. -/

def specA : VLSpec := ⟨true, ["x"], "u1"⟩
def specB : VLSpec := ⟨true, ["x", "y"], "u1"⟩
def specC : VLSpec := ⟨true, ["y"], "u1"⟩
def specBad : VLSpec := ⟨false, [], "u1"⟩
def dataA : DataObj := ⟨["q"], some 3, "u1"⟩
def cvA : Task → Except Err FeatureVec := fun t => Except.ok [("len", t.query.encodings.length)]
def cvFail : Task → Except Err FeatureVec := fun _ => Except.error Err.computeError
def exA : Example := Example.posNeg "a-0" (Val.data dataA) (Val.str "value") "man" specA specB
def exB : Example := Example.posNeg "a-1" (Val.data dataA) (Val.str "value") "man" specA specC
def exA2 : Example := Example.posNeg "a-9" (Val.data dataA) (Val.str "value") "lab" specA specB
def exBad : Example := Example.posNeg "b-0" (Val.data dataA) (Val.str "value") "man" specBad specB
def taskNA : Task := ⟨Val.data dataA, ⟨[⟨0, "x"⟩]⟩, Val.str "value"⟩
def taskPA : Task := ⟨Val.data dataA, ⟨[⟨1, "x"⟩, ⟨2, "y"⟩]⟩, Val.str "value"⟩
def cacheN : Cache := [(taskNA.to_asp, [("len", 1)])]
def cacheA : Cache := [(taskPA.to_asp, [("len", 2)]), (taskNA.to_asp, [("len", 1)])]
def rowA : FeatureRow := ⟨"a-0", [("len", 1)], [("len", 2)], "man", Val.str "value"⟩
def rowA2 : FeatureRow := ⟨"a-9", [("len", 1)], [("len", 2)], "lab", Val.str "value"⟩
def taskPB : Task := ⟨Val.data dataA, ⟨[⟨1, "y"⟩]⟩, Val.str "value"⟩
def cacheB : Cache := [(taskPB.to_asp, [("len", 1)]), (taskPA.to_asp, [("len", 2)]), (taskNA.to_asp, [("len", 1)])]
def rowB : FeatureRow := ⟨"a-1", [("len", 1)], [("len", 1)], "man", Val.str "value"⟩
def fromJsonA : String → DataObj := fun u => ⟨["c1"], Option.none, "long-" ++ u⟩
def dA1 : DataObj := ⟨["c1"], Option.none, "u1"⟩
def filesA : List (List (List (List VLSpec))) := [[[[specA, specC]]]]
def exU : Example := Example.unlabeled "halden-0" Val.none (Val.data dA1) "halden" specA specC
def taskNU : Task := ⟨Val.none, ⟨[⟨0, "x"⟩]⟩, Val.data dA1⟩
def taskPU : Task := ⟨Val.none, ⟨[⟨1, "y"⟩]⟩, Val.data dA1⟩
def cacheU : Cache := [(taskPU.to_asp, [("len", 1)]), (taskNU.to_asp, [("len", 1)])]
def cacheNU : Cache := [(taskNU.to_asp, [("len", 1)])]
def rowU : FeatureRow := ⟨"halden-0", [("len", 1)], [("len", 1)], "halden", Val.data dA1⟩

/-! ### Cache lookup and memoization lemmas -/

theorem alookup_tab {κ β : Type} [DecidableEq κ] (g : κ → β) (l : List κ) (k : κ) :
    alookup (l.map fun c => (c, g c)) k = if k ∈ l then some (g k) else Option.none := by
  induction l with
  | nil => simp [alookup]
  | cons c cs ih =>
    simp only [List.map_cons, alookup, List.mem_cons]
    by_cases h : c = k
    · subst h; simp
    · rw [if_neg h, ih]
      by_cases hk : k ∈ cs
      · rw [if_pos hk, if_pos (Or.inr hk)]
      · rw [if_neg hk, if_neg (fun hor => hor.elim (fun hkc => h hkc.symm) hk)]

theorem alookup_mapVal {κ β γ : Type} [DecidableEq κ] (g : β → γ) (l : List (κ × β)) (k : κ) :
    alookup (l.map fun p => (p.1, g p.2)) k = (alookup l k).map g := by
  induction l with
  | nil => simp [alookup]
  | cons p rest ih =>
    by_cases h : p.1 = k
    · simp [alookup, h]
    · simp [alookup, h, ih]

theorem memoized_hit (cv : Task → Except Err FeatureVec) (cache : Cache) (t : Task)
    (v : FeatureVec) (hl : alookup cache t.to_asp = some v) :
    count_violations_memoized cv cache t = Except.ok (v, cache, 0) := by
  unfold count_violations_memoized
  rw [hl]

theorem memoized_ok_lookup (cv : Task → Except Err FeatureVec) (cache : Cache) (t : Task)
    (v : FeatureVec) (c : Cache) (n : Nat)
    (h : count_violations_memoized cv cache t = Except.ok (v, c, n)) :
    alookup c t.to_asp = some v := by
  unfold count_violations_memoized at h
  split at h
  next w hl =>
    simp only [Except.ok.injEq, Prod.mk.injEq] at h
    obtain ⟨hv, hc, -⟩ := h
    subst hv
    rw [← hc]
    exact hl
  next hl =>
    split at h
    next w hcv =>
      simp only [Except.ok.injEq, Prod.mk.injEq] at h
      obtain ⟨hv, hc, -⟩ := h
      subst hv
      rw [← hc]
      simp [alookup]
    next e hcv => simp at h

theorem memoized_preserve (cv : Task → Except Err FeatureVec) (cache : Cache) (t : Task)
    (v : FeatureVec) (c : Cache) (n : Nat) (k : String) (w : FeatureVec)
    (h : count_violations_memoized cv cache t = Except.ok (v, c, n))
    (hk : alookup cache k = some w) : alookup c k = some w := by
  unfold count_violations_memoized at h
  split at h
  next v' hl =>
    simp only [Except.ok.injEq, Prod.mk.injEq] at h
    obtain ⟨-, hc, -⟩ := h
    rw [← hc]; exact hk
  next hl =>
    split at h
    next v' hcv =>
      simp only [Except.ok.injEq, Prod.mk.injEq] at h
      obtain ⟨-, hc, -⟩ := h
      rw [← hc]
      simp only [alookup]
      by_cases hkey : t.to_asp = k
      · rw [hkey] at hl; rw [hl] at hk; cases hk
      · rw [if_neg hkey]; exact hk
    next e hcv => simp at h

/-! ### Inversion lemmas for the worker -/

theorem exampleTasks_ok_inv (r : PosNeg) (tn tp : Task)
    (h : exampleTasks r = Except.ok (tn, tp)) :
    ∃ qn cnt1 qp cnt2, Query.from_vegalite 0 r.negative = Except.ok (qn, cnt1) ∧
      Query.from_vegalite cnt1 r.positive = Except.ok (qp, cnt2) ∧
      tn = ⟨r.data, qn, r.task⟩ ∧ tp = ⟨r.data, qp, r.task⟩ := by
  unfold exampleTasks at h
  split at h
  next e heq1 => simp at h
  next qn cnt1 heq1 =>
    split at h
    next e heq2 => simp at h
    next qp cnt2 heq2 =>
      simp only [Except.ok.injEq, Prod.mk.injEq] at h
      exact ⟨qn, cnt1, qp, cnt2, heq1, heq2, h.1.symm, h.2.symm⟩

theorem processOne_ok_inv (cv : Task → Except Err FeatureVec) (cache : Cache) (e : Example)
    (row : FeatureRow) (c : Cache) (n : Nat)
    (h : processOne cv cache e = Except.ok (row, c, n)) :
    ∃ tn tp c1 n1 n2, exampleTasks (rebuild e) = Except.ok (tn, tp) ∧
      count_violations_memoized cv cache tn = Except.ok (row.neg, c1, n1) ∧
      count_violations_memoized cv c1 tp = Except.ok (row.pos, c, n2) ∧
      row.pair_id = (rebuild e).pair_id ∧ row.source = (rebuild e).source ∧
      row.task = (rebuild e).task ∧ n = n1 + n2 := by
  unfold processOne at h
  split at h
  next err heq => simp at h
  next tn tp heq =>
    split at h
    next err heq1 => simp at h
    next vn c1 n1 heq1 =>
      split at h
      next err heq2 => simp at h
      next vp c2 n2 heq2 =>
        simp only [Except.ok.injEq, Prod.mk.injEq] at h
        obtain ⟨hrow, hc, hn⟩ := h
        subst hc
        refine ⟨tn, tp, c1, n1, n2, heq, ?_, ?_, ?_, ?_, ?_, hn.symm⟩ <;>
          rw [← hrow]
        · exact heq1
        · exact heq2

theorem processOne_ok_valid (cv : Task → Except Err FeatureVec) (cache : Cache) (e : Example)
    (x : FeatureRow × Cache × Nat) (h : processOne cv cache e = Except.ok x) :
    (rebuild e).negative.valid = true ∧ (rebuild e).positive.valid = true := by
  obtain ⟨row, c, n⟩ := x
  obtain ⟨tn, tp, c1, n1, n2, hex, -⟩ := processOne_ok_inv cv cache e row c n h
  unfold exampleTasks at hex
  split at hex
  next e1 heq1 => simp at hex
  next qn cnt1 heq1 =>
    split at hex
    next e2 heq2 => simp at hex
    next qp cnt2 heq2 =>
      constructor
      · unfold Query.from_vegalite at heq1
        by_cases hv : (rebuild e).negative.valid
        · exact hv
        · rw [if_neg hv] at heq1; simp at heq1
      · unfold Query.from_vegalite at heq2
        by_cases hv : (rebuild e).positive.valid
        · exact hv
        · rw [if_neg hv] at heq2; simp at heq2

/-! ### Partitioning lemmas: `np.array_split` sections are contiguous,
order-preserving, and (when the section count is at most the length) all
nonempty. -/

theorem sumL_append (a b : List Nat) : sumL (a ++ b) = sumL a + sumL b := by
  induction a with
  | nil => simp [sumL]
  | cons x xs ih =>
    show x + sumL (xs ++ b) = x + sumL xs + sumL b
    rw [ih, Nat.add_assoc]

theorem sumL_replicate (k a : Nat) : sumL (List.replicate k a) = k * a := by
  induction k with
  | zero => simp [sumL]
  | succ m ih => simp only [List.replicate, sumL, ih]; ring

theorem sum_splitSizes (N n : Nat) (hn : 1 ≤ n) : sumL (splitSizes N n) = N := by
  have hr : N % n ≤ n := Nat.le_of_lt (Nat.mod_lt _ hn)
  have hd := Nat.div_add_mod N n
  have hm : N % n + (n - N % n) = n := Nat.add_sub_cancel' hr
  unfold splitSizes
  rw [sumL_append, sumL_replicate, sumL_replicate]
  calc N % n * (N / n + 1) + (n - N % n) * (N / n)
      = (N % n + (n - N % n)) * (N / n) + N % n := by ring
    _ = n * (N / n) + N % n := by rw [hm]
    _ = N := hd

theorem length_splitSizes (N n : Nat) (hn : 1 ≤ n) : (splitSizes N n).length = n := by
  have hr : N % n ≤ n := Nat.le_of_lt (Nat.mod_lt _ hn)
  simp only [splitSizes, List.length_append, List.length_replicate]
  exact Nat.add_sub_cancel' hr

theorem length_splitBySizes {α : Type} (sizes : List Nat) (l : List α) :
    (splitBySizes sizes l).length = sizes.length := by
  induction sizes generalizing l with
  | nil => simp [splitBySizes]
  | cons s rest ih => simp [splitBySizes, ih]

theorem joinL_splitBySizes {α : Type} (sizes : List Nat) (l : List α) :
    joinL (splitBySizes sizes l) = l.take (sumL sizes) := by
  induction sizes generalizing l with
  | nil => simp [splitBySizes, joinL, sumL]
  | cons s rest ih =>
    simp only [splitBySizes, joinL, sumL, ih]
    exact (List.take_add l s (sumL rest)).symm

theorem array_split_join {α : Type} (l : List α) (n : Nat) (hn : 1 ≤ n) :
    joinL (array_split l n) = l := by
  unfold array_split
  rw [joinL_splitBySizes, sum_splitSizes _ _ hn, List.take_length]

theorem array_split_length {α : Type} (l : List α) (n : Nat) (hn : 1 ≤ n) :
    (array_split l n).length = n := by
  unfold array_split
  rw [length_splitBySizes, length_splitSizes _ _ hn]

theorem splitSizes_pos (N n : Nat) (hn : 1 ≤ n) (hN : n ≤ N) :
    ∀ s ∈ splitSizes N n, 1 ≤ s := by
  intro s hs
  have hq : 1 ≤ N / n := (Nat.one_le_div_iff hn).mpr hN
  simp only [splitSizes, List.mem_append, List.mem_replicate] at hs
  rcases hs with ⟨-, h⟩ | ⟨-, h⟩ <;> omega

theorem splitBySizes_ne_nil {α : Type} (sizes : List Nat) (l : List α)
    (h1 : ∀ s ∈ sizes, 1 ≤ s) (h2 : sumL sizes ≤ l.length) :
    ∀ p ∈ splitBySizes sizes l, p ≠ [] := by
  induction sizes generalizing l with
  | nil => simp [splitBySizes]
  | cons s rest ih =>
    simp only [sumL] at h2
    intro p hp
    simp only [splitBySizes, List.mem_cons] at hp
    rcases hp with hp | hp
    · subst hp
      have hs : 1 ≤ s := h1 s (by simp)
      intro hnil
      have hlen := congrArg List.length hnil
      rw [List.length_take] at hlen
      simp only [List.length_nil] at hlen
      omega
    · exact ih (l.drop s) (fun x hx => h1 x (by simp [hx]))
        (by rw [List.length_drop]; omega) p hp

theorem array_split_ne_nil {α : Type} (l : List α) (n : Nat) (hn : 1 ≤ n)
    (hN : n ≤ l.length) : ∀ p ∈ array_split l n, p ≠ [] := by
  unfold array_split
  exact splitBySizes_ne_nil _ _ (splitSizes_pos _ _ hn hN)
    (le_of_eq (sum_splitSizes _ _ hn))

theorem mem_joinL {α : Type} (ps : List (List α)) (x : α) :
    x ∈ joinL ps ↔ ∃ p ∈ ps, x ∈ p := by
  induction ps with
  | nil => simp [joinL]
  | cons p rest ih =>
    simp only [joinL, List.mem_append, ih, List.mem_cons]
    constructor
    · rintro (h | ⟨q, hq, hx⟩)
      · exact ⟨p, Or.inl rfl, h⟩
      · exact ⟨q, Or.inr hq, hx⟩
    · rintro ⟨q, hq | hq, hx⟩
      · subst hq; exact Or.inl hx
      · exact Or.inr ⟨q, hq, hx⟩

/-! ### Worker loop lemmas -/

theorem processPartition_append (cv : Task → Except Err FeatureVec) (cache : Cache)
    (l1 l2 : List Example) :
    processPartition cv cache (l1 ++ l2) =
      match processPartition cv cache l1 with
      | Except.error err => Except.error err
      | Except.ok (r1, c1, n1) =>
        match processPartition cv c1 l2 with
        | Except.error err => Except.error err
        | Except.ok (r2, c2, n2) => Except.ok (r1 ++ r2, c2, n1 + n2) := by
  induction l1 generalizing cache with
  | nil =>
    simp only [List.nil_append, processPartition]
    cases processPartition cv cache l2 with
    | error err => rfl
    | ok x => obtain ⟨r2, c2, n2⟩ := x; simp
  | cons e rest ih =>
    have hstep : processPartition cv cache (e :: rest ++ l2) =
        match processOne cv cache e with
        | Except.error err => Except.error err
        | Except.ok (row, c1, n1) =>
          match processPartition cv c1 (rest ++ l2) with
          | Except.error err => Except.error err
          | Except.ok (rows, c2, n2) => Except.ok (row :: rows, c2, n1 + n2) := rfl
    rw [hstep]
    simp only [processPartition]
    cases processOne cv cache e with
    | error err => rfl
    | ok x =>
      obtain ⟨row, c1, n1⟩ := x
      dsimp only
      rw [ih c1]
      cases processPartition cv c1 rest with
      | error err => rfl
      | ok y =>
        obtain ⟨r1, c2, n2⟩ := y
        dsimp only
        cases processPartition cv c2 l2 with
        | error err => rfl
        | ok z =>
          obtain ⟨r2, c3, n3⟩ := z
          dsimp only
          simp [Nat.add_assoc]

theorem processPartition_ok_spec (cv : Task → Except Err FeatureVec) :
    ∀ (part : List Example) (cache : Cache) (rows : List FeatureRow) (c : Cache) (n : Nat),
      processPartition cv cache part = Except.ok (rows, c, n) →
      rows.length = part.length ∧
        rows.map FeatureRow.pair_id = part.map fun e => (rebuild e).pair_id := by
  intro part
  induction part with
  | nil =>
    intro cache rows c n h
    simp only [processPartition, Except.ok.injEq, Prod.mk.injEq] at h
    obtain ⟨h1, -⟩ := h
    rw [← h1]
    simp
  | cons e rest ih =>
    intro cache rows c n h
    simp only [processPartition] at h
    split at h
    next err heq => simp at h
    next row c1 n1 heq1 =>
      split at h
      next err heq => simp at h
      next rows2 c2 n2 heq2 =>
        simp only [Except.ok.injEq, Prod.mk.injEq] at h
        obtain ⟨hrows, -, -⟩ := h
        obtain ⟨hl, hm⟩ := ih c1 rows2 c2 n2 heq2
        obtain ⟨tn, tp, cc, m1, m2, -, -, -, hpid, -, -, -⟩ :=
          processOne_ok_inv cv cache e row c1 n1 heq1
        rw [← hrows]
        simp [hl, hm, hpid]

theorem processPartition_ok_valid (cv : Task → Except Err FeatureVec) :
    ∀ (part : List Example) (cache : Cache) (x : List FeatureRow × Cache × Nat),
      processPartition cv cache part = Except.ok x →
      ∀ e ∈ part, (rebuild e).negative.valid = true ∧ (rebuild e).positive.valid = true := by
  intro part
  induction part with
  | nil => intro cache x h e he; simp at he
  | cons e0 rest ih =>
    intro cache x h e he
    simp only [processPartition] at h
    split at h
    next err heq => simp at h
    next row c1 n1 heq1 =>
      split at h
      next err heq => simp at h
      next rows2 c2 n2 heq2 =>
        rcases List.mem_cons.mp he with he | he
        · subst he
          exact processOne_ok_valid cv cache e _ heq1
        · exact ih c1 _ heq2 e he

theorem pair_partition_ok (cv : Task → Except Err FeatureVec) (cache : Cache)
    (p : List Example) (hp : p ≠ []) :
    pair_partition_to_vec cv (cache, p) = processPartition cv cache p := by
  unfold pair_partition_to_vec
  cases hpp : processPartition cv cache p with
  | error err => rfl
  | ok x =>
    obtain ⟨rows, c, n⟩ := x
    have hlen := (processPartition_ok_spec cv p cache rows c n hpp).1
    cases rows with
    | nil => exact absurd (List.length_eq_zero.mp hlen.symm) hp
    | cons r rs => simp [List.isEmpty]

theorem mapPartitions_eq (cv : Task → Except Err FeatureVec) (cache : Cache)
    (parts : List (List Example)) (hne : ∀ p ∈ parts, p ≠ []) :
    mapPartitions (pair_partition_to_vec cv) cache parts =
      processPartition cv cache (joinL parts) := by
  induction parts generalizing cache with
  | nil => simp [mapPartitions, joinL, processPartition]
  | cons p ps ih =>
    simp only [mapPartitions, joinL]
    rw [pair_partition_ok cv cache p (hne p (by simp)), processPartition_append]
    cases processPartition cv cache p with
    | error err => rfl
    | ok x =>
      obtain ⟨rows, c1, n1⟩ := x
      dsimp only
      rw [ih c1 (fun q hq => hne q (by simp [hq]))]

theorem mapPartitions_ok_length (cv : Task → Except Err FeatureVec) :
    ∀ (parts : List (List Example)) (cache : Cache) (rows : List FeatureRow) (c : Cache)
      (n : Nat),
      mapPartitions (pair_partition_to_vec cv) cache parts = Except.ok (rows, c, n) →
      rows.length = (joinL parts).length := by
  intro parts
  induction parts with
  | nil =>
    intro cache rows c n h
    simp only [mapPartitions, Except.ok.injEq, Prod.mk.injEq] at h
    obtain ⟨h1, -⟩ := h
    rw [← h1]
    simp [joinL]
  | cons p ps ih =>
    intro cache rows c n h
    simp only [mapPartitions] at h
    split at h
    next err heq => simp at h
    next rows1 c1 n1 heq1 =>
      split at h
      next err heq => simp at h
      next rows2 c2 n2 heq2 =>
        simp only [Except.ok.injEq, Prod.mk.injEq] at h
        obtain ⟨hrows, -, -⟩ := h
        unfold pair_partition_to_vec at heq1
        split at heq1
        next err heq3 => simp at heq1
        next rows0 c0 n0 heq3 =>
          split at heq1
          next hemp => simp at heq1
          next hemp =>
            simp only [Except.ok.injEq, Prod.mk.injEq] at heq1
            obtain ⟨h0, -, -⟩ := heq1
            have hplen := (processPartition_ok_spec cv p cache rows0 c0 n0 heq3).1
            rw [← hrows, ← h0]
            simp only [joinL, List.length_append]
            rw [hplen, ih c1 rows2 c2 n2 heq2]

theorem run_eq_seq (cv : Task → Except Err FeatureVec) (cpu : Nat) (data : List Example)
    (hcpu : 1 ≤ cpu) : pairs_to_vec cv cpu data = runSeq cv data := by
  unfold pairs_to_vec run_in_parallel runSeq
  by_cases h0 : data.length = 0
  · have hs : splitsOf cpu data.length = 0 := by unfold splitsOf; omega
    rw [if_pos hs, if_pos h0]
  · have hN : 1 ≤ data.length := Nat.one_le_iff_ne_zero.mpr h0
    have hs1 : 1 ≤ splitsOf cpu data.length := by unfold splitsOf; omega
    have hsN : splitsOf cpu data.length ≤ data.length := by unfold splitsOf; omega
    rw [if_neg (by omega), if_neg h0,
      mapPartitions_eq cv [] _ (array_split_ne_nil data _ hs1 hsN),
      array_split_join data _ hs1]

/-! ### Sorting lemmas for the aggregator -/

theorem leChars_total (a b : List Char) : leChars a b = true ∨ leChars b a = true := by
  induction a generalizing b with
  | nil => left; rfl
  | cons x xs ih =>
    cases b with
    | nil => right; rfl
    | cons y ys =>
      simp only [leChars]
      by_cases h1 : x.toNat < y.toNat
      · left; rw [if_pos h1]
      · by_cases h2 : y.toNat < x.toNat
        · right; rw [if_pos h2]
        · rw [if_neg h1, if_neg h2, if_neg h2, if_neg h1]
          exact ih ys

theorem leChars_trans (a : List Char) : ∀ (b c : List Char), leChars a b = true →
    leChars b c = true → leChars a c = true := by
  induction a with
  | nil => intro b c h1 h2; rfl
  | cons x xs ih =>
    intro b c h1 h2
    cases b with
    | nil => simp [leChars] at h1
    | cons y ys =>
      cases c with
      | nil => simp [leChars] at h2
      | cons z zs =>
        simp only [leChars] at h1 h2 ⊢
        by_cases hxy : x.toNat < y.toNat
        · by_cases hyz : y.toNat < z.toNat
          · rw [if_pos (by omega : x.toNat < z.toNat)]
          · rw [if_neg hyz] at h2
            by_cases hzy : z.toNat < y.toNat
            · rw [if_pos hzy] at h2; exact absurd h2 (by simp)
            · rw [if_pos (by omega : x.toNat < z.toNat)]
        · rw [if_neg hxy] at h1
          by_cases hyx : y.toNat < x.toNat
          · rw [if_pos hyx] at h1; exact absurd h1 (by simp)
          · rw [if_neg hyx] at h1
            by_cases hyz : y.toNat < z.toNat
            · rw [if_pos (by omega : x.toNat < z.toNat)]
            · rw [if_neg hyz] at h2
              by_cases hzy : z.toNat < y.toNat
              · rw [if_pos hzy] at h2; exact absurd h2 (by simp)
              · rw [if_neg hzy] at h2
                rw [if_neg (by omega : ¬x.toNat < z.toNat),
                  if_neg (by omega : ¬z.toNat < x.toNat)]
                exact ih ys zs h1 h2

theorem leStr_total (a b : String) : leStr a b = true ∨ leStr b a = true :=
  leChars_total a.data b.data

theorem leStr_trans (a b c : String) (h1 : leStr a b = true) (h2 : leStr b c = true) :
    leStr a c = true :=
  leChars_trans a.data b.data c.data h1 h2

theorem length_insertRow (r : FeatureRow) (l : List FeatureRow) :
    (insertRow r l).length = l.length + 1 := by
  induction l with
  | nil => rfl
  | cons x xs ih =>
    simp only [insertRow]
    by_cases h : leStr r.pair_id x.pair_id = true
    · rw [if_pos h]; rfl
    · rw [if_neg h]; simp [ih]

theorem length_sortRows (l : List FeatureRow) : (sortRows l).length = l.length := by
  induction l with
  | nil => rfl
  | cons x xs ih =>
    show (insertRow x (sortRows xs)).length = xs.length + 1
    rw [length_insertRow, ih]

theorem mem_insertRow (r y : FeatureRow) (l : List FeatureRow) :
    y ∈ insertRow r l ↔ y = r ∨ y ∈ l := by
  induction l with
  | nil => simp [insertRow]
  | cons x xs ih =>
    simp only [insertRow]
    by_cases h : leStr r.pair_id x.pair_id = true
    · rw [if_pos h]; simp [List.mem_cons]
    · rw [if_neg h]; simp only [List.mem_cons, ih]; tauto

theorem pairwise_insertRow (r : FeatureRow) (l : List FeatureRow) (h : SortedRows l) :
    SortedRows (insertRow r l) := by
  induction l with
  | nil => simp [insertRow, SortedRows]
  | cons x xs ih =>
    rw [SortedRows, List.pairwise_cons] at h
    obtain ⟨hx, hxs⟩ := h
    simp only [insertRow]
    by_cases hc : leStr r.pair_id x.pair_id = true
    · rw [if_pos hc, SortedRows, List.pairwise_cons]
      refine ⟨?_, List.pairwise_cons.mpr ⟨hx, hxs⟩⟩
      intro y hy
      rcases List.mem_cons.mp hy with hy | hy
      · rw [hy]; exact hc
      · exact leStr_trans _ _ _ hc (hx y hy)
    · rw [if_neg hc, SortedRows, List.pairwise_cons]
      refine ⟨?_, ih hxs⟩
      intro y hy
      rcases (mem_insertRow r y xs).mp hy with hy | hy
      · rw [hy]; exact (leStr_total r.pair_id x.pair_id).resolve_left hc
      · exact hx y hy

theorem sorted_sortRows (l : List FeatureRow) : SortedRows (sortRows l) := by
  induction l with
  | nil => simp [sortRows, SortedRows]
  | cons x xs ih => exact pairwise_insertRow x (sortRows xs) ih

/-! ### Row schema lemmas: fixed columns, cell placement, zero filling -/

theorem map_fst_tab {κ β : Type} (g : κ → β) (l : List κ) :
    (l.map fun c => (c, g c)).map Prod.fst = l := by
  induction l with
  | nil => rfl
  | cons c cs ih => simp [ih]

theorem rowCells_columns (features : List String) (row : FeatureRow) :
    (rowCells features row).map Prod.fst = get_nested_index features :=
  map_fst_tab (rowLookup row) (get_nested_index features)

theorem alookup_rowCells_mem (features : List String) (row : FeatureRow)
    (col : String × String) (hc : col ∈ get_nested_index features) :
    alookup (rowCells features row) col = some (rowLookup row col) := by
  unfold rowCells
  rw [alookup_tab, if_pos hc]

theorem alookup_fillna0 (cells : List ((String × String) × Option Val))
    (k : String × String) :
    alookup (fillna0 cells) k =
      (alookup cells k).map fun v => some (v.getD (Val.nat 0)) := by
  induction cells with
  | nil => simp [fillna0, alookup]
  | cons p rest ih =>
    show alookup ((p.1, some (p.2.getD (Val.nat 0))) :: fillna0 rest) k = _
    by_cases h : p.1 = k
    · simp [alookup, h]
    · simp [alookup, h, ih]

theorem neg_col_mem (features : List String) (f : String) (hf : f ∈ features) :
    ("negative", f) ∈ get_nested_index features := by
  unfold get_nested_index
  exact List.mem_append.mpr
    (Or.inl (List.mem_append.mpr (Or.inl (List.mem_map.mpr ⟨f, hf, rfl⟩))))

theorem rowLookup_negative (row : FeatureRow) (f : String) :
    rowLookup row ("negative", f) = (alookup row.neg f).map Val.nat := by
  simp [rowLookup]

theorem rowLookup_positive (row : FeatureRow) (f : String) :
    rowLookup row ("positive", f) = (alookup row.pos f).map Val.nat := by
  simp [rowLookup]

theorem rowLookup_source (row : FeatureRow) :
    rowLookup row ("source", "") = some (Val.str row.source) := by
  simp [rowLookup]

theorem rowLookup_task (row : FeatureRow) :
    rowLookup row ("task", "") = some row.task := by
  simp [rowLookup]

/-! ### Loader lemmas -/

theorem acquire_data_spec (fromJson : String → DataObj) (cache : DataCache) (url : String)
    (hinv : ∀ u d, alookup cache u = some d → d = resolvedData fromJson u) :
    (acquire_data fromJson cache url).1 = resolvedData fromJson url ∧
      ∀ u d, alookup (acquire_data fromJson cache url).2 u = some d →
        d = resolvedData fromJson u := by
  unfold acquire_data
  cases hl : alookup cache url with
  | some d =>
    exact ⟨hinv url d hl, fun u e he => hinv u e he⟩
  | none =>
    refine ⟨rfl, ?_⟩
    intro u e he
    simp only [alookup] at he
    by_cases hu : url = u
    · rw [if_pos hu] at he
      injection he with he
      rw [← he, ← hu]
    · rw [if_neg hu] at he
      exact hinv u e he

theorem loadPairs_sound (fromJson : String → DataObj) :
    ∀ (pairs : List (VLSpec × VLSpec)) (cnt : Nat) (cache : DataCache)
      (exs : List Example) (cnt2 : Nat) (cache2 : DataCache),
      (∀ u d, alookup cache u = some d → d = resolvedData fromJson u) →
      loadPairs fromJson cnt cache pairs = Except.ok (exs, cnt2, cache2) →
      ∀ e ∈ exs, unlabeledShape fromJson e := by
  intro pairs
  induction pairs with
  | nil =>
    intro cnt cache exs cnt2 cache2 hinv h e he
    simp only [loadPairs, Except.ok.injEq, Prod.mk.injEq] at h
    obtain ⟨h1, -⟩ := h
    rw [← h1] at he
    simp at he
  | cons pr rest ih =>
    obtain ⟨l, r⟩ := pr
    intro cnt cache exs cnt2 cache2 hinv h e he
    simp only [loadPairs] at h
    split at h
    next hlr => simp at h
    next hlr =>
      split at h
      next hurl => simp at h
      next hurl =>
        obtain ⟨hd, hrest⟩ := acquire_data_spec fromJson cache l.url hinv
        split at h
        next err heq => simp at h
        next exs1 cnt3 cache3 heq =>
          simp only [Except.ok.injEq, Prod.mk.injEq] at h
          obtain ⟨h1, -⟩ := h
          rw [← h1] at he
          rcases List.mem_cons.mp he with he | he
          · rw [he]
            refine ⟨rfl, ?_, rfl, not_not.mp hurl⟩
            rw [hd]
          · exact ih (cnt + 1) (acquire_data fromJson cache l.url).2 exs1 cnt3 cache3
              hrest heq e he

theorem load_unlabeled_ok_shape (fromJson : String → DataObj)
    (files : List (List (List (List VLSpec)))) (exs : List Example)
    (h : load_unlabeled_specs fromJson files = Except.ok exs) :
    ∀ e ∈ exs, unlabeledShape fromJson e := by
  unfold load_unlabeled_specs at h
  split at h
  next err heq => simp at h
  next exs1 cnt1 cache1 heq =>
    simp only [Except.ok.injEq] at h
    rw [← h]
    exact loadPairs_sound fromJson (allPairs files) 0 [] exs1 cnt1 cache1
      (by intro u d hu; simp [alookup] at hu) heq

/-! ### Claim theorems -/

/-- C1: for a fixed example set, counter and vocabulary, two runs of the
vectorization pipeline with different cpu counts — hence different
partition counts `splits` and worker counts `processes` — return identical
feature tables and identical content fingerprints.  The per-example reset
of the encoding counter (threaded explicitly, reset to 0 in
`exampleTasks`) makes each example's canonical keys a function of the
example alone, and the fold over the partitions composes to the fold over
the whole input, so the partitioning cannot influence any row. -/
theorem C1_determinism (cv : Task → Except Err FeatureVec) (data : List Example)
    (cpu1 cpu2 : Nat) (h1 : 1 ≤ cpu1) (h2 : 1 ≤ cpu2) :
    pairs_to_vec cv cpu1 data = pairs_to_vec cv cpu2 data ∧
      (pairs_to_vec cv cpu1 data).map fingerprint =
        (pairs_to_vec cv cpu2 data).map fingerprint := by
  rw [run_eq_seq cv cpu1 data h1, run_eq_seq cv cpu2 data h2]
  exact ⟨rfl, rfl⟩

/-- Witness for C1: a concrete two-example set under cpu counts 1 and 2. -/
theorem C1_determinism_witness :
    pairs_to_vec cvA 1 [exA, exB] = pairs_to_vec cvA 2 [exA, exB] ∧
      (pairs_to_vec cvA 1 [exA, exB]).map fingerprint =
        (pairs_to_vec cvA 2 [exA, exB]).map fingerprint :=
  C1_determinism cvA [exA, exB] 1 2 (by decide) (by decide)

/-- C2 counterexample: at `N = 0` the computed split count is
`min(1 * 20, ceil(0 / 10)) = 0` — it is not floored to 1 — and the run
fails with the `np.array_split` error instead of producing partitions. -/
theorem C2_counterexample :
    splitsOf 1 0 = 0 ∧
      run_in_parallel (pair_partition_to_vec cvA) 1 [] = Except.error Err.valueError :=
  ⟨rfl, rfl⟩

/-- C2 (amended): for every nonempty input (`N ≥ 1`) and `cpu_count ≥ 1`
the partitioner produces exactly `P = min(cpu_count * 20, ceil(N / 10))`
contiguous order-preserving partitions — their concatenation is the input
and each is nonempty — `P ≥ 1` holds automatically (no flooring exists in
the code), `P = 1` whenever `1 ≤ N < 10`, and the worker concurrency is
`W = min(cpu_count, P)`; for `N = 0` the code instead computes `P = 0` and
the split fails. -/
theorem C2_partition_counts (cpu : Nat) (data : List Example) (hcpu : 1 ≤ cpu)
    (hN : 1 ≤ data.length) :
    splitsOf cpu data.length = min (cpu * 20) ((data.length + 9) / 10) ∧
      1 ≤ splitsOf cpu data.length ∧
      (array_split data (splitsOf cpu data.length)).length = splitsOf cpu data.length ∧
      joinL (array_split data (splitsOf cpu data.length)) = data ∧
      (∀ p ∈ array_split data (splitsOf cpu data.length), p ≠ []) ∧
      (data.length < 10 → splitsOf cpu data.length = 1) ∧
      processesOf cpu (splitsOf cpu data.length) = min cpu (splitsOf cpu data.length) := by
  have hs1 : 1 ≤ splitsOf cpu data.length := by unfold splitsOf; omega
  have hsN : splitsOf cpu data.length ≤ data.length := by unfold splitsOf; omega
  refine ⟨rfl, hs1, array_split_length data _ hs1, array_split_join data _ hs1,
    array_split_ne_nil data _ hs1 hsN, ?_, rfl⟩
  intro hlt
  unfold splitsOf
  omega

/-- Witness for C2 (amended) at one example and one cpu. -/
theorem C2_partition_counts_witness :
    splitsOf 1 ([exA] : List Example).length =
        min (1 * 20) ((([exA] : List Example).length + 9) / 10) ∧
      1 ≤ splitsOf 1 ([exA] : List Example).length ∧
      (array_split [exA] (splitsOf 1 ([exA] : List Example).length)).length =
        splitsOf 1 ([exA] : List Example).length ∧
      joinL (array_split [exA] (splitsOf 1 ([exA] : List Example).length)) = [exA] ∧
      (∀ p ∈ array_split [exA] (splitsOf 1 ([exA] : List Example).length), p ≠ []) ∧
      (([exA] : List Example).length < 10 → splitsOf 1 ([exA] : List Example).length = 1) ∧
      processesOf 1 (splitsOf 1 ([exA] : List Example).length) =
        min 1 (splitsOf 1 ([exA] : List Example).length) :=
  C2_partition_counts 1 [exA] (by decide) (by decide)

/-- C3 counterexample: the empty input does not yield an empty 0-row
table — the pipeline errors, because `np.array_split` rejects 0 sections
(and `pd.concat` would reject an empty fragment list). -/
theorem C3_counterexample : pairs_to_vec cvA 1 [] = Except.error Err.valueError := rfl

/-- C3 (amended): for an empty input the pipeline computes zero partitions
and aborts with an error instead of returning an empty feature table; the
full expected column set — `negative`/`positive` crossed with each feature
name plus the `source` and `task` columns — is `get_nested_index`, and
every materialized row carries exactly it, but no table is produced for
`N = 0`. -/
theorem C3_empty_input (cv : Task → Except Err FeatureVec) (cpu : Nat)
    (features : List String) (row : FeatureRow) :
    pairs_to_vec cv cpu [] = Except.error Err.valueError ∧
      (rowCells features row).map Prod.fst =
        (features.map fun f => ("negative", f)) ++ (features.map fun f => ("positive", f))
          ++ [("source", ""), ("task", "")] := by
  constructor
  · unfold pairs_to_vec run_in_parallel
    have h0 : splitsOf cpu (List.length ([] : List Example)) = 0 := by
      show splitsOf cpu 0 = 0
      unfold splitsOf
      omega
    rw [if_pos h0]
  · rw [rowCells_columns]
    rfl

/-- C4: resolving two tasks with byte-identical canonical serializations
through the cache yields identical feature vectors and invokes the counter
exactly as many times as there are cache misses (so at most once for the
pair, and never on the second resolution); and two examples with identical
data/task/negative payloads but different pair ids get identical negative
sub-vectors while remaining distinct rows. -/
theorem C4_memoization_sharing :
    (∀ (cv : Task → Except Err FeatureVec) (cache : Cache) (t1 t2 : Task)
       (v1 : FeatureVec) (c1 : Cache) (n1 : Nat) (v2 : FeatureVec) (c2 : Cache) (n2 : Nat),
       t1.to_asp = t2.to_asp →
       count_violations_memoized cv cache t1 = Except.ok (v1, c1, n1) →
       count_violations_memoized cv c1 t2 = Except.ok (v2, c2, n2) →
       v2 = v1 ∧ c2 = c1 ∧ n2 = 0 ∧ n1 + n2 = missCount cache t1.to_asp) ∧
    (∀ (cv : Task → Except Err FeatureVec) (cache : Cache)
       (pid1 pid2 : String) (d t : Val) (s1 s2 : String) (neg p1 p2 : VLSpec)
       (r1 : FeatureRow) (c1 : Cache) (k1 : Nat) (r2 : FeatureRow) (c2 : Cache) (k2 : Nat),
       pid1 ≠ pid2 →
       processOne cv cache (Example.posNeg pid1 d t s1 neg p1) = Except.ok (r1, c1, k1) →
       processOne cv c1 (Example.posNeg pid2 d t s2 neg p2) = Except.ok (r2, c2, k2) →
       r2.neg = r1.neg ∧ r1 ≠ r2) := by
  constructor
  · intro cv cache t1 t2 v1 c1 n1 v2 c2 n2 hkey h1 h2
    have hl1 : alookup c1 t1.to_asp = some v1 := memoized_ok_lookup cv cache t1 v1 c1 n1 h1
    have hl2 : alookup c1 t2.to_asp = some v1 := by rw [← hkey]; exact hl1
    have hhit := memoized_hit cv c1 t2 v1 hl2
    rw [hhit] at h2
    simp only [Except.ok.injEq, Prod.mk.injEq] at h2
    obtain ⟨hv, hc, hn⟩ := h2
    refine ⟨hv.symm, hc.symm, hn.symm, ?_⟩
    unfold count_violations_memoized at h1
    unfold missCount
    split at h1
    next w hl =>
      simp only [Except.ok.injEq, Prod.mk.injEq] at h1
      obtain ⟨-, -, h0⟩ := h1
      omega
    next hl =>
      split at h1
      next w hcv =>
        simp only [Except.ok.injEq, Prod.mk.injEq] at h1
        obtain ⟨-, -, h0⟩ := h1
        omega
      next e hcv => simp at h1
  · intro cv cache pid1 pid2 d t s1 s2 neg p1 p2 r1 c1 k1 r2 c2 k2 hpid h1 h2
    obtain ⟨tn1, tp1, cc1, m1, m2, hex1, hm1, hm2, hpid1, -, -, -⟩ :=
      processOne_ok_inv cv cache _ r1 c1 k1 h1
    obtain ⟨tn2, tp2, cc2, m3, m4, hex2, hm3, -, hpid2, -, -, -⟩ :=
      processOne_ok_inv cv c1 _ r2 c2 k2 h2
    obtain ⟨qn1, cnt1, qp1, cnt1b, hq1, -, htn1, -⟩ := exampleTasks_ok_inv _ _ _ hex1
    obtain ⟨qn2, cnt2, qp2, cnt2b, hq2, -, htn2, -⟩ := exampleTasks_ok_inv _ _ _ hex2
    have hq12 : (Except.ok (qn1, cnt1) : Except Err (Query × Nat)) = Except.ok (qn2, cnt2) :=
      hq1.symm.trans hq2
    simp only [Except.ok.injEq, Prod.mk.injEq] at hq12
    obtain ⟨hqn, -⟩ := hq12
    have htn12 : tn2 = tn1 := by rw [htn1, htn2, ← hqn]; rfl
    have hl1 : alookup cc1 tn1.to_asp = some r1.neg :=
      memoized_ok_lookup cv cache tn1 _ cc1 m1 hm1
    have hl2 : alookup c1 tn1.to_asp = some r1.neg :=
      memoized_preserve cv cc1 tp1 _ c1 m2 _ _ hm2 hl1
    have hhit : count_violations_memoized cv c1 tn2 = Except.ok (r1.neg, c1, 0) := by
      rw [htn12]; exact memoized_hit cv c1 tn1 r1.neg hl2
    rw [hhit] at hm3
    simp only [Except.ok.injEq, Prod.mk.injEq] at hm3
    obtain ⟨hv, -, -⟩ := hm3
    have hpa : r1.pair_id = pid1 := hpid1
    have hpb : r2.pair_id = pid2 := hpid2
    refine ⟨hv.symm, ?_⟩
    intro hr
    apply hpid
    rw [← hpa, ← hpb, hr]

/-- Witness for C4: two concrete examples sharing the negative payload. -/
theorem C4_memoization_sharing_witness : rowA2.neg = rowA.neg ∧ rowA ≠ rowA2 :=
  C4_memoization_sharing.2 cvA [] "a-0" "a-9" (Val.data dataA) (Val.str "value") "man" "lab"
    specA specB specB rowA cacheA 2 rowA2 cacheA 0 (by decide) rfl rfl

/-- C5: cache resolution is idempotent — after a successful `get_or_compute`
for a key, any later call with a task of the same canonical key returns the
stored vector, invokes the supplied compute function zero times (even one
that would fail), and leaves the cache unchanged. -/
theorem C5_cache_idempotent (cv cv2 : Task → Except Err FeatureVec) (cache : Cache)
    (t t2 : Task) (v : FeatureVec) (c : Cache) (n : Nat)
    (hk : t2.to_asp = t.to_asp)
    (h : count_violations_memoized cv cache t = Except.ok (v, c, n)) :
    count_violations_memoized cv2 c t2 = Except.ok (v, c, 0) := by
  have hl : alookup c t2.to_asp = some v := by
    rw [hk]; exact memoized_ok_lookup cv cache t v c n h
  exact memoized_hit cv2 c t2 v hl

/-- Witness for C5: the second resolution uses the always-failing counter
and still returns the first call's cached vector. -/
theorem C5_cache_idempotent_witness :
    count_violations_memoized cvFail cacheN taskNA = Except.ok ([("len", 1)], cacheN, 0) :=
  C5_cache_idempotent cvA cvFail [] taskNA taskNA [("len", 1)] cacheN 1 rfl rfl

/-- C6: each worker emits exactly one feature row per input example, in the
same relative order as its partition (row ids equal the examples' pair ids
in order); after aggregation the output row count equals the input example
count; and the callers' `assert len(specs) == len(vecs)` consistency check
is the fatal guard for any mismatch — here it passes. -/
theorem C6_one_row_per_example :
    (∀ (cv : Task → Except Err FeatureVec) (cache : Cache) (part : List Example)
       (rows : List FeatureRow) (c : Cache) (n : Nat),
       pair_partition_to_vec cv (cache, part) = Except.ok (rows, c, n) →
       rows.length = part.length ∧
         rows.map FeatureRow.pair_id = part.map fun e => (rebuild e).pair_id) ∧
    (∀ (cv : Task → Except Err FeatureVec) (cpu : Nat) (data : List Example)
       (table : List FeatureRow),
       pairs_to_vec cv cpu data = Except.ok table →
       table.length = data.length ∧ lengthAssert data table = Except.ok ()) := by
  constructor
  · intro cv cache part rows c n h
    unfold pair_partition_to_vec at h
    split at h
    next err heq => simp at h
    next rows0 c0 n0 heq =>
      split at h
      next hemp => simp at h
      next hemp =>
        simp only [Except.ok.injEq, Prod.mk.injEq] at h
        obtain ⟨h0, -, -⟩ := h
        rw [← h0]
        exact processPartition_ok_spec cv part cache rows0 c0 n0 heq
  · intro cv cpu data table h
    unfold pairs_to_vec run_in_parallel at h
    split at h
    next hz => simp at h
    next hz =>
      split at h
      next err heq => simp at h
      next rows c0 n0 heq =>
        simp only [Except.ok.injEq] at h
        have hs1 : 1 ≤ splitsOf cpu data.length := Nat.one_le_iff_ne_zero.mpr hz
        have hlen := mapPartitions_ok_length cv
          (array_split data (splitsOf cpu data.length)) [] rows c0 n0 heq
        rw [array_split_join data _ hs1] at hlen
        have hfin : table.length = data.length := by
          rw [← h, length_sortRows, hlen]
        exact ⟨hfin, by unfold lengthAssert; rw [if_pos hfin.symm]⟩

/-- Witness for C6 on a concrete two-example run. -/
theorem C6_one_row_per_example_witness :
    ([rowA, rowB] : List FeatureRow).length = ([exA, exB] : List Example).length ∧
      lengthAssert [exA, exB] [rowA, rowB] = Except.ok () :=
  C6_one_row_per_example.2 cvA 1 [exA, exB] [rowA, rowB] rfl

/-- C7: failures are fail-fast with no partial result — if any example's
payload cannot be parsed into a valid query the whole run returns an error
and no feature table is produced (the error value carries no rows); and
with a violation counter that always raises, any nonempty input aborts the
run the same way. -/
theorem C7_fail_fast :
    (∀ (cv : Task → Except Err FeatureVec) (cpu : Nat) (data : List Example) (e : Example),
       e ∈ data →
       ((rebuild e).negative.valid = false ∨ (rebuild e).positive.valid = false) →
       isErr (pairs_to_vec cv cpu data) = true) ∧
    (∀ (cpu : Nat) (data : List Example), 1 ≤ cpu → data ≠ [] →
       isErr (pairs_to_vec cvFail cpu data) = true) := by
  constructor
  · intro cv cpu data e he hbad
    cases hrun : pairs_to_vec cv cpu data with
    | error err => rfl
    | ok table =>
      exfalso
      unfold pairs_to_vec run_in_parallel at hrun
      split at hrun
      next hz => simp at hrun
      next hz =>
        split at hrun
        next err heq => simp at hrun
        next rows c0 n0 heq =>
          have hs1 : 1 ≤ splitsOf cpu data.length := Nat.one_le_iff_ne_zero.mpr hz
          have hN : 1 ≤ data.length :=
            List.length_pos.mpr (List.ne_nil_of_mem he)
          have hsN : splitsOf cpu data.length ≤ data.length := by
            unfold splitsOf; omega
          rw [mapPartitions_eq cv [] _ (array_split_ne_nil data _ hs1 hsN),
            array_split_join data _ hs1] at heq
          obtain ⟨hv1, hv2⟩ := processPartition_ok_valid cv data [] (rows, c0, n0) heq e he
          rcases hbad with hb | hb
          · rw [hv1] at hb; exact Bool.noConfusion hb
          · rw [hv2] at hb; exact Bool.noConfusion hb
  · intro cpu data hcpu hne
    rw [run_eq_seq cvFail cpu data hcpu]
    cases data with
    | nil => exact absurd rfl hne
    | cons e rest =>
      unfold runSeq
      rw [if_neg (by simp)]
      have hone : ∃ err, processOne cvFail [] e = Except.error err := by
        cases hex : exampleTasks (rebuild e) with
        | error err => exact ⟨err, by unfold processOne; rw [hex]⟩
        | ok tt =>
          obtain ⟨tn, tp⟩ := tt
          refine ⟨Err.computeError, ?_⟩
          unfold processOne
          rw [hex]
          dsimp only
          have hmem : count_violations_memoized cvFail [] tn =
              Except.error Err.computeError := rfl
          rw [hmem]
      obtain ⟨err, herr⟩ := hone
      have hpp : processPartition cvFail [] (e :: rest) = Except.error err := by
        simp only [processPartition]
        rw [herr]
      rw [hpp]
      rfl

/-- Witness for C7: one malformed payload aborts the whole concrete run. -/
theorem C7_fail_fast_witness : isErr (pairs_to_vec cvA 1 [exBad]) = true :=
  C7_fail_fast.1 cvA 1 [exBad] exBad (by decide) (Or.inl rfl)

/-- C8: every feature row places the negative vector's counts under the
`negative` column category and the positive vector's under `positive`,
carries the `source` and `task` scalar columns, and is indexed by its
example's pair id; every row's cell list ranges over the same fixed column
set, the aggregated table is sorted by the pair-id index, and a feature
name missing from a computed vector reads as the count 0 after the
fillna step of `_get_pos_neg_data`, not as a missing value. -/
theorem C8_row_schema :
    (∀ (cv : Task → Except Err FeatureVec) (cache : Cache) (e : Example)
       (row : FeatureRow) (c : Cache) (n : Nat),
       processOne cv cache e = Except.ok (row, c, n) →
       row.pair_id = (rebuild e).pair_id ∧ row.source = (rebuild e).source ∧
         row.task = (rebuild e).task ∧
         (∀ f, rowLookup row ("negative", f) = (alookup row.neg f).map Val.nat) ∧
         (∀ f, rowLookup row ("positive", f) = (alookup row.pos f).map Val.nat) ∧
         rowLookup row ("source", "") = some (Val.str row.source) ∧
         rowLookup row ("task", "") = some row.task) ∧
    (∀ (features : List String) (row : FeatureRow),
       (rowCells features row).map Prod.fst = get_nested_index features) ∧
    (∀ (cv : Task → Except Err FeatureVec) (cpu : Nat) (data : List Example)
       (table : List FeatureRow),
       pairs_to_vec cv cpu data = Except.ok table → SortedRows table) ∧
    (∀ (features : List String) (row : FeatureRow) (f : String),
       f ∈ features → alookup row.neg f = Option.none →
       alookup (fillna0 (rowCells features row)) ("negative", f) =
         some (some (Val.nat 0))) := by
  refine ⟨?_, rowCells_columns, ?_, ?_⟩
  · intro cv cache e row c n h
    obtain ⟨tn, tp, c1, n1, n2, -, -, -, hpid, hsrc, htask, -⟩ :=
      processOne_ok_inv cv cache e row c n h
    exact ⟨hpid, hsrc, htask, rowLookup_negative row, rowLookup_positive row,
      rowLookup_source row, rowLookup_task row⟩
  · intro cv cpu data table h
    unfold pairs_to_vec run_in_parallel at h
    split at h
    next hz => simp at h
    next hz =>
      split at h
      next err heq => simp at h
      next rows c0 n0 heq =>
        simp only [Except.ok.injEq] at h
        rw [← h]
        exact sorted_sortRows rows
  · intro features row f hf hmiss
    rw [alookup_fillna0, alookup_rowCells_mem features row _ (neg_col_mem features f hf),
      rowLookup_negative, hmiss]
    rfl

/-- Witness for C8: schema facts at the concrete first row. -/
theorem C8_row_schema_witness :
    rowA.pair_id = (rebuild exA).pair_id ∧ rowA.source = (rebuild exA).source ∧
      rowA.task = (rebuild exA).task ∧
      rowLookup rowA ("negative", "len") = (alookup rowA.neg "len").map Val.nat := by
  have h := C8_row_schema.1 cvA [] exA rowA cacheA 2 rfl
  exact ⟨h.1, h.2.1, h.2.2.1, h.2.2.2.1 "len"⟩

/-- C9: an example arriving at the worker as a positional row is rebuilt as
a `PosNegExample` whatever its original variant — so for an unlabeled
example the left payload takes the `negative` field and the right payload
the `positive` field, processing is literally identical to the rebuilt
pos/neg example, and the left payload's resolved vector is the one the row
reports under the `negative` column category. -/
theorem C9_positional_rebuild :
    (∀ (pid : String) (d t : Val) (s : String) (l r : VLSpec),
       rebuild (Example.unlabeled pid d t s l r) = rebuild (Example.posNeg pid d t s l r) ∧
       (rebuild (Example.unlabeled pid d t s l r)).negative = l ∧
       (rebuild (Example.unlabeled pid d t s l r)).positive = r) ∧
    (∀ (cv : Task → Except Err FeatureVec) (cache : Cache) (pid : String) (d t : Val)
       (s : String) (l r : VLSpec),
       processOne cv cache (Example.unlabeled pid d t s l r) =
         processOne cv cache (Example.posNeg pid d t s l r)) ∧
    (∀ (cv : Task → Except Err FeatureVec) (cache : Cache) (pid : String) (d t : Val)
       (s : String) (l r : VLSpec) (row : FeatureRow) (c : Cache) (n : Nat)
       (ql : Query) (cnt1 : Nat) (v : FeatureVec) (c1 : Cache) (n1 : Nat),
       processOne cv cache (Example.unlabeled pid d t s l r) = Except.ok (row, c, n) →
       Query.from_vegalite 0 l = Except.ok (ql, cnt1) →
       count_violations_memoized cv cache ⟨d, ql, t⟩ = Except.ok (v, c1, n1) →
       row.neg = v ∧
         (∀ f, rowLookup row ("negative", f) = (alookup row.neg f).map Val.nat)) := by
  refine ⟨fun pid d t s l r => ⟨rfl, rfl, rfl⟩, fun cv cache pid d t s l r => rfl, ?_⟩
  intro cv cache pid d t s l r row c n ql cnt1 v c1 n1 h hq hm
  obtain ⟨tn, tp, cc, m1, m2, hex, hm1, -, -, -, -, -⟩ :=
    processOne_ok_inv cv cache _ row c n h
  obtain ⟨qn, cntx, qp, cnty, hqx, -, htn, -⟩ := exampleTasks_ok_inv _ _ _ hex
  have hq2 : (Except.ok (qn, cntx) : Except Err (Query × Nat)) = Except.ok (ql, cnt1) :=
    hqx.symm.trans hq
  simp only [Except.ok.injEq, Prod.mk.injEq] at hq2
  obtain ⟨hqn, -⟩ := hq2
  have htn2 : tn = (⟨d, ql, t⟩ : Task) := by rw [htn, hqn]; rfl
  rw [htn2] at hm1
  rw [hm1] at hm
  simp only [Except.ok.injEq, Prod.mk.injEq] at hm
  exact ⟨hm.1, fun f => rowLookup_negative row f⟩

/-- Witness for C9 at a concrete unlabeled example. -/
theorem C9_positional_rebuild_witness :
    rowU.neg = [("len", 1)] ∧
      rowLookup rowU ("negative", "len") = (alookup rowU.neg "len").map Val.nat := by
  have h := C9_positional_rebuild.2.2 cvA [] "halden-0" Val.none (Val.data dA1) "halden"
    specA specC rowU cacheU 2 ⟨[⟨0, "x"⟩]⟩ 1 [("len", 1)] cacheNU 1 rfl rfl rfl
  exact ⟨h.1, h.2 "len"⟩

/-- C10: every example constructed by the unlabeled loader has `None` in
its data field and the url-resolved `Data` object — owned by the per-run
url-keyed cache, hence determined by the url — in its task field, with
source `halden` and both sides sharing the url; consequently the worker
builds tasks whose data component is `None` and writes the `Data` object
itself into the row's `task` scalar column. -/
theorem C10_unlabeled_loader (fromJson : String → DataObj)
    (files : List (List (List (List VLSpec)))) (exs : List Example)
    (h : load_unlabeled_specs fromJson files = Except.ok exs) :
    ∀ e ∈ exs, unlabeledShape fromJson e ∧
      (∀ tn tp, exampleTasks (rebuild e) = Except.ok (tn, tp) →
        tn.data = Val.none ∧ tp.data = Val.none) ∧
      (∀ (cv : Task → Except Err FeatureVec) (cache : Cache) (row : FeatureRow)
         (c : Cache) (n : Nat),
         processOne cv cache e = Except.ok (row, c, n) →
         row.task = (rebuild e).task ∧ row.source = "halden") := by
  intro e he
  have hshape := load_unlabeled_ok_shape fromJson files exs h e he
  refine ⟨hshape, ?_, ?_⟩
  · intro tn tp hex
    cases e with
    | posNeg pid d t s nn q => exact absurd hshape (by simp [unlabeledShape])
    | unlabeled pid d t s l r =>
      obtain ⟨hd, -, -, -⟩ := hshape
      obtain ⟨qn, cnt1, qp, cnt2, -, -, htn, htp⟩ := exampleTasks_ok_inv _ _ _ hex
      constructor
      · rw [htn]; exact hd
      · rw [htp]; exact hd
  · intro cv cache row c n hp
    obtain ⟨tn, tp, c1, n1, n2, -, -, -, -, hsrc, htask, -⟩ :=
      processOne_ok_inv cv cache e row c n hp
    refine ⟨htask, ?_⟩
    cases e with
    | posNeg pid d t s nn q => exact absurd hshape (by simp [unlabeledShape])
    | unlabeled pid d t s l r =>
      obtain ⟨-, -, hs, -⟩ := hshape
      rw [hsrc]
      exact hs

/-- Witness for C10 at the concrete loader input. -/
theorem C10_unlabeled_loader_witness :
    unlabeledShape fromJsonA exU ∧ rowU.task = (rebuild exU).task ∧
      rowU.source = "halden" := by
  have h := C10_unlabeled_loader fromJsonA filesA [exU] rfl exU (by decide)
  exact ⟨h.1, (h.2.2 cvA [] rowU cacheU 2 rfl).1, (h.2.2 cvA [] rowU cacheU 2 rfl).2⟩

end Draco
